import Mathlib

/-!
Verification development for the hybrid retrieval engine of supa-crawl-chat
(`src/db_client.py` and `src/chat.py`).

The Python code is shallowly embedded: the Postgres store becomes an explicit
`Store` value (lists of sites/pages plus oracle functions for the DB-computed
full-text rank and pgvector cosine similarity), SQL queries become list
pipelines (filter / stable sort / take), Python dicts with insertion order
become association lists, and Python floats become `ℚ`.
-/

namespace Supa

/-! ### Generic helpers: substring test, stable sort, association lists -/

/-- `beginsWith needle hay`: `needle` is an initial segment of `hay`. -/
def beginsWith : List Char → List Char → Bool
  | [], _ => true
  | _ :: _, [] => false
  | a :: as, b :: bs => a == b && beginsWith as bs

/-- `containsSub needle hay`: `needle` occurs contiguously inside `hay`
(the semantics of Python's `in` on strings and of SQL `LIKE '%needle%'`,
ignoring `%`/`_` wildcard characters inside the needle). -/
def containsSub : List Char → List Char → Bool
  | n, [] => n.isEmpty
  | n, c :: rest => beginsWith n (c :: rest) || containsSub n rest

/-- Substring test on strings. -/
def subStr (needle hay : String) : Bool :=
  containsSub needle.toList hay.toList

/-- ASCII lowercasing on a character list (Python `str.lower()` for the
ASCII queries and names this system handles). Defined on `List Char` so
that it reduces in the kernel. -/
def lowerList (cs : List Char) : List Char := cs.map Char.toLower

/-- Lowercase a string. -/
def lowerStr (s : String) : String := String.mk (lowerList s.data)

/-- Insert `a` into `l` before the first element `b` with `lt b a = false`.
Together with `sortBy` this is a stable sort: `lt x y` means `x` must come
strictly before `y`. -/
def insertBefore (lt : α → α → Bool) (a : α) : List α → List α
  | [] => [a]
  | b :: bs => if lt b a then b :: insertBefore lt a bs else a :: b :: bs

/-- Stable insertion sort, modelling Python's stable `list.sort` and the
(deterministic model of) SQL `ORDER BY`. -/
def sortBy (lt : α → α → Bool) : List α → List α
  | [] => []
  | a :: as => insertBefore lt a (sortBy lt as)

/-- Sort by a rational key, descending, stable: models
`list.sort(key=..., reverse=True)` and `ORDER BY key DESC`. -/
def sortBySimDesc (key : α → ℚ) (l : List α) : List α :=
  sortBy (fun x y => decide (key y < key x)) l

/-- Rational multiplication written through `mkRat` so that concrete values
reduce inside the kernel; `qMul_eq` below shows it is the standard
multiplication on `ℚ`. -/
def qMul (a b : ℚ) : ℚ := mkRat (a.num * b.num) (a.den * b.den)

theorem qMul_eq (a b : ℚ) : qMul a b = a * b := by
  rw [qMul, Rat.mul_def, Rat.normalize_eq_mkRat]

/-- Python dict assignment `d[k] = v` on an insertion-ordered dict:
overwriting an existing key keeps its position, a new key is appended. -/
def setKeyA (d : List (String × β)) (k : String) (v : β) : List (String × β) :=
  if d.any (fun e => e.1 == k) then
    d.map (fun e => if e.1 == k then (k, v) else e)
  else d ++ [(k, v)]

/-! ### Lemmas about the helpers -/

theorem insertBefore_perm (lt : α → α → Bool) (a : α) (l : List α) :
    List.Perm (insertBefore lt a l) (a :: l) := by
  induction l with
  | nil => rfl
  | cons b bs ih =>
    unfold insertBefore
    by_cases h : lt b a = true
    · rw [if_pos h]
      exact ((ih.cons b).trans (List.Perm.swap a b bs))
    · rw [if_neg h]

theorem sortBy_perm (lt : α → α → Bool) (l : List α) : List.Perm (sortBy lt l) l := by
  induction l with
  | nil => rfl
  | cons a as ih =>
    exact (insertBefore_perm lt a (sortBy lt as)).trans (ih.cons a)

theorem mem_insertBefore {lt : α → α → Bool} {a x : α} {l : List α} :
    x ∈ insertBefore lt a l ↔ x = a ∨ x ∈ l := by
  rw [(insertBefore_perm lt a l).mem_iff, List.mem_cons]

theorem pairwise_insertBefore (key : α → ℚ) (a : α) (l : List α)
    (h : l.Pairwise (fun x y => key y ≤ key x)) :
    (insertBefore (fun x y => decide (key y < key x)) a l).Pairwise
      (fun x y => key y ≤ key x) := by
  induction l with
  | nil => simp [insertBefore]
  | cons b bs ih =>
    rcases List.pairwise_cons.mp h with ⟨hb, hbs⟩
    unfold insertBefore
    by_cases hc : key a < key b
    · simp only [decide_eq_true_eq, hc, if_true]
      refine List.pairwise_cons.mpr ⟨?_, ih hbs⟩
      intro x hx
      rcases mem_insertBefore.mp hx with rfl | hx
      · exact le_of_lt hc
      · exact hb x hx
    · simp only [decide_eq_true_eq, hc, if_false]
      refine List.pairwise_cons.mpr ⟨?_, h⟩
      intro x hx
      rcases List.mem_cons.mp hx with rfl | hx
      · exact le_of_not_lt hc
      · exact le_trans (hb x hx) (le_of_not_lt hc)

theorem pairwise_sortBySimDesc (key : α → ℚ) (l : List α) :
    (sortBySimDesc key l).Pairwise (fun x y => key y ≤ key x) := by
  induction l with
  | nil => exact List.Pairwise.nil
  | cons a as ih => exact pairwise_insertBefore key a _ ih

theorem length_sortBySimDesc (key : α → ℚ) (l : List α) :
    (sortBySimDesc key l).length = l.length :=
  (sortBy_perm _ l).length_eq

theorem filter_length_mono (p q : α → Bool) (l : List α)
    (h : ∀ a ∈ l, p a = true → q a = true) :
    (l.filter p).length ≤ (l.filter q).length := by
  induction l with
  | nil => exact Nat.le_refl 0
  | cons a as ih =>
    have ih2 := ih (fun b hb => h b (List.mem_cons_of_mem a hb))
    by_cases hp : p a = true
    · rw [List.filter_cons_of_pos hp, List.filter_cons_of_pos (h a (List.mem_cons_self a as) hp)]
      exact Nat.succ_le_succ ih2
    · rw [List.filter_cons_of_neg (by simpa using hp)]
      by_cases hq : q a = true
      · rw [List.filter_cons_of_pos hq]
        exact Nat.le_succ_of_le ih2
      · rw [List.filter_cons_of_neg (by simpa using hq)]
        exact ih2

/-! ### Domain detection in queries

`search_by_text` runs
`re.compile(r'([a-zA-Z0-9][-a-zA-Z0-9]*\.)+[a-zA-Z0-9][-a-zA-Z0-9]*').findall(query.lower())`.
We model the regex engine: greedy leftmost non-overlapping matching, and
(faithfully to Python's `findall` on a pattern with one capture group) each
match contributes the final capture of the repeated group, i.e. the last
`label.` unit of the matched hostname. -/

/-- ASCII letter or digit, the `[a-zA-Z0-9]` class. -/
def isAlnumA (c : Char) : Bool := c.isAlpha || c.isDigit

/-- The `[-a-zA-Z0-9]` class. -/
def isLabelChar (c : Char) : Bool := isAlnumA c || c == '-'

/-- Length of the maximal prefix of label characters. -/
def takeLabelLen : List Char → Nat
  | [] => 0
  | c :: rest => if isLabelChar c then takeLabelLen rest + 1 else 0

/-- Greedy parse of `(label '.')+ label` at the head of `cs`, assuming the
head starts a label. Returns the number of characters matched and the last
`label.` capture (empty if no `label.` unit was consumed). -/
def domainMatchLoop : Nat → List Char → Nat × List Char
  | 0, cs => (takeLabelLen cs, [])
  | fuel + 1, cs =>
    let l := takeLabelLen cs
    match cs.drop l with
    | '.' :: c2 :: _ =>
      if isAlnumA c2 then
        let r := domainMatchLoop fuel (cs.drop (l + 1))
        (l + 1 + r.1, if r.2.isEmpty then cs.take (l + 1) else r.2)
      else (l, [])
    | _ => (l, [])

/-- Attempt a regex match at the head of `cs`: succeeds iff an alnum-led
label is followed by `'.'` and another alnum character. -/
def matchDomainAt (cs : List Char) : Option (Nat × List Char) :=
  match cs with
  | [] => none
  | c :: _ =>
    if isAlnumA c then
      let l := takeLabelLen cs
      match cs.drop l with
      | '.' :: c2 :: _ =>
        if isAlnumA c2 then some (domainMatchLoop cs.length cs) else none
      | _ => none
    else none

/-- `findall`: scan left to right, non-overlapping matches. -/
def findAllDomains : Nat → List Char → List String
  | 0, _ => []
  | _, [] => []
  | fuel + 1, c :: rest =>
    match matchDomainAt (c :: rest) with
    | some (len, cap) => String.mk cap :: findAllDomains fuel ((c :: rest).drop len)
    | none => findAllDomains fuel rest

/-- The `domains` list extracted from a query (query is lowercased first,
as in the source). -/
def findDomains (q : String) : List String :=
  let cs := lowerList q.data
  findAllDomains cs.length cs

/-! ### Data model: sites, pages, the content store -/

/-- A row of `crawl_sites` (only the columns the retrieval core reads). -/
structure Site where
  id : Nat
  name : String
deriving DecidableEq

/-- A row of `crawl_pages` (metadata and timestamps omitted: the retrieval
core never branches on them). `none` models SQL NULL. -/
structure Page where
  id : Nat
  site_id : Nat
  url : String
  title : Option String
  content : Option String
  summary : Option String
  embedding : Option (List ℚ)
  is_chunk : Bool
  chunk_index : Option Nat
  parent_id : Option Nat
deriving DecidableEq

/-- The backing Postgres store. DB-computed quantities that the Python code
treats as opaque are oracle fields: `ftMatch`/`ftRank` model
`plainto_tsquery` matching and `ts_rank_cd`, `cosSim` models
`1 - (embedding <=> query_vector)` (defined on equal-dimension vectors; the
mismatched case is handled separately as an error, see `vectorCandidates`). -/
structure Store where
  sites : List Site
  pages : List Page
  pgvector_installed : Bool
  embedding_col_is_vector : Bool
  ftMatch : String → Page → Bool
  ftRank : String → Page → ℚ
  cosSim : List ℚ → List ℚ → ℚ

/-- `p.site_id = %s` filter (absent when no site filter is given). -/
def sitePass (site : Option Nat) (p : Page) : Bool :=
  match site with
  | none => true
  | some s => p.site_id == s

/-- `col ILIKE '%pat%'`: case-insensitive substring; NULL never matches. -/
def likeCI (pat : String) (v : Option String) : Bool :=
  match v with
  | none => false
  | some t => containsSub (lowerList pat.data) (lowerList t.data)

/-- The `crawl_pages p JOIN crawl_sites s ON p.site_id = s.id LEFT JOIN
crawl_pages parent ON p.parent_id = parent.id` row shape shared by every
search query. -/
structure JoinedRow where
  page : Page
  site_name : String
  parent_title : Option String
deriving DecidableEq

/-- Execute the three-table join over the store. -/
def joinedRows (st : Store) : List JoinedRow :=
  st.pages.filterMap (fun p =>
    (st.sites.find? (fun s => s.id == p.site_id)).map (fun s =>
      { page := p
        site_name := s.name
        parent_title := p.parent_id.bind (fun pid =>
          (st.pages.find? (fun q => q.id == pid)).bind (fun q => q.title)) }))

/-! ### LexicalSearch: `search_by_text` -/

/-- A text-search result row: joined row plus the computed `rank` and the
chunk `context` annotation added by the Python result loop. -/
structure TRow where
  page : Page
  site_name : String
  parent_title : Option String
  rank : ℚ
  context : Option String
deriving DecidableEq

/-- Build a result dict from a joined row: chunk rows get
`"From: {parent_title or 'Parent Document'} (Part {chunk_index+1})"`.
(An empty parent title is falsy in Python, hence also defaulted. A chunk row
whose `chunk_index` is NULL is modelled with index 0.) -/
def withContext (r : JoinedRow) (rank : ℚ) : TRow :=
  { page := r.page
    site_name := r.site_name
    parent_title := r.parent_title
    rank := rank
    context :=
      if r.page.is_chunk then
        some ("From: " ++
          (match r.parent_title with
           | some t => if t = "" then "Parent Document" else t
           | none => "Parent Document") ++
          " (Part " ++ toString (r.page.chunk_index.getD 0 + 1) ++ ")")
      else none }

/-- `ORDER BY p.is_chunk ASC` (stable; parents before chunks). -/
def chunkAscJ (l : List JoinedRow) : List JoinedRow :=
  sortBy (fun x y => !x.page.is_chunk && y.page.is_chunk) l

/-- `ORDER BY p.is_chunk ASC` on result rows. -/
def chunkAscT (l : List TRow) : List TRow :=
  sortBy (fun x y => !x.page.is_chunk && y.page.is_chunk) l

/-- `ORDER BY rank DESC, p.is_chunk ASC`. -/
def rankDescChunkAsc (l : List TRow) : List TRow :=
  sortBy (fun x y => decide (y.rank < x.rank) ||
    (x.rank == y.rank && (!x.page.is_chunk && y.page.is_chunk))) l

/-- Stage 2 of the waterfall: `p.title ILIKE '%query%' ... ORDER BY
p.is_chunk ASC LIMIT limit`, with constant rank 1.0. -/
def titleStage (st : Store) (query : String) (lim : Nat) (site : Option Nat) : List TRow :=
  ((chunkAscJ ((joinedRows st).filter (fun r =>
      likeCI query r.page.title && sitePass site r.page))).take lim).map
    (fun r => withContext r 1)

/-- Stage 3: full-text search, `to_tsvector(title || content) @@
plainto_tsquery(query) ... ORDER BY rank DESC, is_chunk ASC LIMIT limit*2`. -/
def fullTextStage (st : Store) (query : String) (lim : Nat) (site : Option Nat) : List TRow :=
  (rankDescChunkAsc (((joinedRows st).filter (fun r =>
      st.ftMatch query r.page && sitePass site r.page)).map
    (fun r => withContext r (st.ftRank query r.page)))).take (lim * 2)

/-- Stage 4: relaxed `(title ILIKE '%q%' OR content ILIKE '%q%') ... ORDER BY
is_chunk ASC LIMIT limit`, with constant rank 0.5. -/
def ilikeStage (st : Store) (query : String) (lim : Nat) (site : Option Nat) : List TRow :=
  (chunkAscT (((joinedRows st).filter (fun r =>
      (likeCI query r.page.title || likeCI query r.page.content) && sitePass site r.page)).map
    (fun r => withContext r (mkRat 1 2)))).take lim

/-- Stage 1 (domain-prioritized branch): full-text match restricted to pages
whose URL contains one of the extracted domain captures (`url LIKE
'%domain%'`, case-sensitive), `ORDER BY rank DESC, is_chunk ASC LIMIT
limit*2`. -/
def domainStage (st : Store) (query : String) (domains : List String) (lim : Nat)
    (site : Option Nat) : List TRow :=
  (rankDescChunkAsc (((joinedRows st).filter (fun r =>
      st.ftMatch query r.page && sitePass site r.page &&
        domains.any (fun dm => containsSub dm.toList r.page.url.toList))).map
    (fun r => withContext r (st.ftRank query r.page)))).take (lim * 2)

/-- Result of `search_by_text` plus which stages were executed (for the
waterfall short-circuit property). -/
structure TextSearchOut where
  results : List TRow
  ranTitle : Bool
  ranFullText : Bool
  ranIlike : Bool
  ranDomain : Bool
deriving DecidableEq

/-- `DBClient.search_by_text`: domain branch if the query contains a
domain-shaped substring, else title match, else full-text, else relaxed
ILIKE; each stage only runs when the previous produced nothing. (The model
is total: the Python `except` fallback to `[]` has no reachable trigger
here.) -/
def search_by_text (st : Store) (query : String) (lim : Nat) (site : Option Nat) :
    TextSearchOut :=
  let domains := findDomains query
  if domains ≠ [] then
    { results := (domainStage st query domains lim site).take lim
      ranTitle := false, ranFullText := false, ranIlike := false, ranDomain := true }
  else
    let titleRows := titleStage st query lim site
    if titleRows ≠ [] then
      { results := titleRows.take lim
        ranTitle := true, ranFullText := false, ranIlike := false, ranDomain := false }
    else
      let ftRows := fullTextStage st query lim site
      if ftRows ≠ [] then
        { results := ftRows.take lim
          ranTitle := true, ranFullText := true, ranIlike := false, ranDomain := false }
      else
        { results := (ftRows ++ ilikeStage st query lim site).take lim
          ranTitle := true, ranFullText := true, ranIlike := true, ranDomain := false }

/-! ### VectorSearch: `search_by_embedding` -/

/-- A vector-search result row (the dict built at db_client.py:672-686,
projected to the fields the retrieval logic reads). -/
structure VRow where
  page : Page
  site_name : String
  parent_title : Option String
  similarity : ℚ
deriving DecidableEq

/-- `embedding IS NOT NULL` plus the optional site filter. -/
def embPass (site : Option Nat) (p : Page) : Bool :=
  p.embedding.isSome && sitePass site p

/-- The query embedding's dimensionality differs from some stored vector the
query would scan: pgvector raises a 'different vector dimensions' error. -/
def dimMismatch (st : Store) (qe : List ℚ) (site : Option Nat) : Bool :=
  (st.pages.filter (embPass site)).any (fun p => (p.embedding.getD []).length != qe.length)

/-- The only error a strategy call can surface. -/
inductive VErr where
  | dimensionMismatch
deriving DecidableEq

/-- Executing the vector SQL query: top `lim` rows by `1 - (embedding <=>
qe)` descending, unfiltered by threshold; raises on dimension mismatch. -/
def vectorCandidates (st : Store) (qe : List ℚ) (site : Option Nat) (lim : Nat) :
    Except VErr (List VRow) :=
  if dimMismatch st qe site then .error .dimensionMismatch
  else .ok ((sortBySimDesc (fun r => r.similarity)
    (((joinedRows st).filter (fun r => embPass site r.page)).map
      (fun r => { page := r.page, site_name := r.site_name,
                  parent_title := r.parent_title,
                  similarity := st.cosSim (r.page.embedding.getD []) qe }))).take lim)

/-- `DBClient.search_by_embedding`: precondition checks (some embedding
exists; pgvector installed; column type is `vector`), then fetch the top
`limit*2` candidates and keep those with `similarity >= threshold`. Any
error in the inner query — including the dimension mismatch — is caught and
degrades to `[]` (db_client.py:707-709). -/
def search_by_embedding (st : Store) (qe : List ℚ) (threshold : ℚ) (lim : Nat)
    (site : Option Nat) : List VRow :=
  if (st.pages.filter (embPass site)).length = 0 then []
  else if !st.pgvector_installed then []
  else if !st.embedding_col_is_vector then []
  else
    match vectorCandidates st qe site (lim * 2) with
    | .error _ => []
    | .ok rows => rows.filter (fun r => decide (threshold ≤ r.similarity))

/-! ### HybridMerger: `hybrid_search` -/

/-- A hybrid result dict. `vector_score`/`text_score`/`rank` are `Option`
because the Python dicts only carry these keys on some paths. -/
structure HRow where
  page : Page
  site_name : String
  parent_title : Option String
  context : Option String
  rank : Option ℚ
  similarity : ℚ
  vector_score : Option ℚ
  text_score : Option ℚ
deriving DecidableEq

/-- A raw vector result viewed as a hybrid result (no score keys yet): the
shape returned by the early `return vector_results[:limit]`. -/
def ofVRow (v : VRow) : HRow :=
  { page := v.page, site_name := v.site_name, parent_title := v.parent_title
    context := none, rank := none, similarity := v.similarity
    vector_score := none, text_score := none }

/-- The in-place mutation applied to every text result when text search
found something: `similarity = 0.65, vector_score = 0.0, text_score = 0.65`
(db_client.py:768-771). -/
def textPrepared (t : TRow) : HRow :=
  { page := t.page, site_name := t.site_name, parent_title := t.parent_title
    context := t.context, rank := some t.rank, similarity := mkRat 13 20
    vector_score := some 0, text_score := some (mkRat 13 20) }

/-- The mutation applied to a vector result entering the merge dict:
`vector_score = similarity, text_score = 0.0`. -/
def vecPrepared (v : VRow) : HRow :=
  { page := v.page, site_name := v.site_name, parent_title := v.parent_title
    context := none, rank := none, similarity := v.similarity
    vector_score := some v.similarity, text_score := some 0 }

/-- Merge-dict step for one vector result: skip empty URLs, else
`combined_results[url] = result`. -/
def addVectorRow (d : List (String × HRow)) (v : VRow) : List (String × HRow) :=
  if v.page.url == "" then d else setKeyA d v.page.url (vecPrepared v)

/-- Score combination for a URL present in both result sets:
`text_score = 0.65; similarity = max(vector_score, 0.65)`. -/
def mergeTextUpd (r : HRow) : HRow :=
  { r with text_score := some (mkRat 13 20)
           similarity := max (r.vector_score.getD 0) (mkRat 13 20) }

/-- Merge-dict step for one text result: skip empty URLs; update the
existing entry if the URL is already present, else append a fresh
text-sourced entry. -/
def addTextRow (d : List (String × HRow)) (t : HRow) : List (String × HRow) :=
  if t.page.url == "" then d
  else if d.any (fun e => e.1 == t.page.url) then
    d.map (fun e => if e.1 == t.page.url then (e.1, mergeTextUpd e.2) else e)
  else
    d ++ [(t.page.url,
      { t with vector_score := some 0, text_score := some (mkRat 13 20), similarity := mkRat 13 20 })]

/-- `vector_threshold = max(threshold * 0.7, 0.2)` (db_client.py:743),
written with kernel-reducible rational operations; `relaxedThreshold_eq`
restates it with the standard `ℚ` arithmetic. -/
def relaxedThreshold (threshold : ℚ) : ℚ :=
  max (qMul threshold (mkRat 7 10)) (mkRat 2 10)

theorem relaxedThreshold_eq (threshold : ℚ) :
    relaxedThreshold threshold = max (threshold * (7 / 10)) (2 / 10) := by
  rw [relaxedThreshold, qMul_eq, Rat.mkRat_eq_div, Rat.mkRat_eq_div]
  norm_num

/-- The relaxed vector search run at the start of `hybrid_search`:
threshold `max(threshold * 0.7, 0.2)`, limit `limit * 2`. -/
def hybridVres (st : Store) (qe : List ℚ) (threshold : ℚ) (lim : Nat)
    (site : Option Nat) : List VRow :=
  search_by_embedding st qe (relaxedThreshold threshold) (lim * 2) site

/-- The text search run by `hybrid_search` when vector results are
insufficient: `search_by_text(query, limit * 2, site_id)`. -/
def hybridTres (st : Store) (query : String) (lim : Nat) (site : Option Nat) : List TRow :=
  (search_by_text st query (lim * 2) site).results

/-- Output of `hybrid_search` plus whether the lexical text search was
invoked (observable as a DB call in the source). -/
structure HybridOut where
  results : List HRow
  textSearchInvoked : Bool
deriving DecidableEq

/-- `DBClient.hybrid_search`: relaxed vector search first; early return of
the top `limit` vector rows when they already meet `limit`; otherwise also
run text search, handle the one-sided cases, else merge by URL into an
insertion-ordered dict, sort by similarity descending and truncate. -/
def hybrid_search (st : Store) (query : String) (qe : List ℚ) (threshold : ℚ)
    (lim : Nat) (site : Option Nat) : HybridOut :=
  let vres := hybridVres st qe threshold lim site
  if vres ≠ [] ∧ lim ≤ vres.length then
    { results := (vres.take lim).map ofVRow, textSearchInvoked := false }
  else
    let tres := hybridTres st query lim site
    let tprep := tres.map textPrepared
    if tres ≠ [] ∧ vres = [] then
      { results := tprep.take lim, textSearchInvoked := true }
    else if tres = [] ∧ vres = [] then
      { results := [], textSearchInvoked := true }
    else
      let d := tprep.foldl addTextRow (vres.foldl addVectorRow [])
      { results := (sortBySimDesc (fun r => r.similarity) (d.map (fun e => e.2))).take lim
        textSearchInvoked := true }

/-! ### RetrievalOrchestrator (`src/chat.py`) -/

/-- A result as seen by the chat layer (`crawler.search` output): the fields
`_regular_search` reads are the store-assigned `id`, the `url` and the
`similarity` score. -/
structure CResult where
  id : Nat
  url : String
  similarity : ℚ
deriving DecidableEq

/-- The REGULAR-mode merge of per-site result lists (chat.py:645-664):
accumulate with `extend` in per-site execution order, stable-sort by
`similarity` descending, truncate to `limit`. -/
def mergeSiteResults (lists : List (List CResult)) (lim : Nat) : List CResult :=
  (sortBySimDesc (fun r => r.similarity) (lists.foldl (fun acc l => acc ++ l) [])).take lim

/-- One pattern matches a site iff pattern-in-name or name-in-pattern,
case-insensitively (chat.py:630-637). -/
def siteMatches (pats : List String) (s : Site) : Bool :=
  pats.any (fun pat =>
    subStr (lowerStr pat) (lowerStr s.name) || subStr (lowerStr s.name) (lowerStr pat))

/-- Resolve profile site-filter patterns to site ids. -/
def matchedSiteIds (sites : List Site) (pats : List String) : List Nat :=
  (sites.filter (siteMatches pats)).map (fun s => s.id)

/-- The chat session state `_regular_search` reads. `crawlerSearch` is the
external collaborator `self.crawler.search(query, limit, threshold,
site_id)`. Modelled from the spec: the crawler module is not part of the two
source files; per spec section 4.5 this call runs the HybridMerger for the
given site filter, and is treated here as an opaque total function. -/
structure ChatBot where
  search_sites : List String
  result_limit : Nat
  similarity_threshold : ℚ
  sites : List Site
  crawlerSearch : String → Nat → ℚ → Option Nat → List CResult

/-- The per-site search-and-merge performed when the profile filter matched
some sites. -/
def perSiteMerged (bot : ChatBot) (query : String) : List CResult :=
  mergeSiteResults
    ((matchedSiteIds bot.sites bot.search_sites).map (fun i =>
      bot.crawlerSearch query bot.result_limit bot.similarity_threshold (some i)))
    bot.result_limit

/-- `ChatBot._regular_search`: with a non-empty profile site filter, resolve
patterns to site ids and search per site; fall back to a single unfiltered
search when no site matched or the merged per-site list is empty. -/
def regularSearch (bot : ChatBot) (query : String) : List CResult :=
  if bot.search_sites ≠ [] then
    if matchedSiteIds bot.sites bot.search_sites ≠ [] then
      if perSiteMerged bot query ≠ [] then perSiteMerged bot query
      else bot.crawlerSearch query bot.result_limit bot.similarity_threshold none
    else bot.crawlerSearch query bot.result_limit bot.similarity_threshold none
  else bot.crawlerSearch query bot.result_limit bot.similarity_threshold none

/-! ### QueryClassifier (`search_for_context`, chat.py:444-486) -/

/-- The retrieval strategies. -/
inductive Strategy where
  | urlSearch
  | bestContent
  | regular
deriving DecidableEq

/-- Split a character list on whitespace runs, dropping empty pieces. -/
def wordsAux : List Char → List Char → List String
  | [], acc => if acc.isEmpty then [] else [String.mk acc.reverse]
  | c :: rest, acc =>
    if c.isWhitespace then
      if acc.isEmpty then wordsAux rest []
      else String.mk acc.reverse :: wordsAux rest []
    else wordsAux rest (c :: acc)

/-- Python `query.split()`: whitespace-separated tokens, empties dropped. -/
def tokens (q : String) : List String :=
  wordsAux q.data []

/-- The fixed trigger-word set of the cheap heuristic. -/
def triggerWords : List String :=
  ["best", "top", "recommend", "favorite", "good", "great", "url", "link", "site"]

/-- Python `str.strip()`: drop whitespace from both ends. -/
def trimStr (s : String) : String :=
  String.mk (((s.data.dropWhile Char.isWhitespace).reverse.dropWhile Char.isWhitespace).reverse)

/-- The raw strategy string: escalate to the auxiliary LLM call only for
queries longer than 3 tokens containing a trigger word (substring test on
the lowercased query); the call's output is stripped; any failure of the
call degrades to the default label. `llm` is the outcome of the external
call. -/
def classifyRaw (q : String) (llm : Except String String) : String :=
  if (tokens q).length > 3 ∧ triggerWords.any (fun w => subStr w (lowerStr q)) then
    match llm with
    | .ok out => trimStr out
    | .error _ => "REGULAR_SEARCH"
  else "REGULAR_SEARCH"

/-- Dispatch on the raw strategy string, case-sensitively; anything other
than the two special labels executes the regular search. -/
def chooseStrategy (q : String) (llm : Except String String) : Strategy :=
  let s := classifyRaw q llm
  if s = "URL_SEARCH" then .urlSearch
  else if s = "BEST_CONTENT" then .bestContent
  else .regular

/-! ### `add_pages` (db_client.py:91-268) -/

/-- One element of the `pages` argument of `add_pages` (the keys the code
reads, with the defaults `.get` supplies). -/
structure PageInput where
  url : String
  title : String
  content : String
  summary : String
  embedding : List ℚ
  is_chunk : Bool
  chunk_index : Nat
deriving DecidableEq

/-- The committed `crawl_pages` table plus the serial id counter. -/
structure CrawlDB where
  pages : List Page
  nextId : Nat
deriving DecidableEq

/-- An empty embedding list is falsy: the stored value becomes NULL. -/
def storedEmb (e : List ℚ) : Option (List ℚ) :=
  if e.isEmpty then none else some e

/-- `url.split('#')[0]`: the chunk URL with its fragment stripped. -/
def stripFrag (u : String) : String :=
  String.mk (u.toList.takeWhile (fun c => c ≠ '#'))

/-- Upsert all parent pages: keyed on `url` among non-chunk rows; update in
place or insert with a fresh id. Returns the new table state, the collected
ids, and the `parent_url_to_id` map. -/
def processParents (db : CrawlDB) (site : Nat) (ps : List PageInput) :
    CrawlDB × List Nat × List (String × Nat) :=
  ps.foldl (fun acc inp =>
    let db := acc.1
    match db.pages.find? (fun p => p.url == inp.url && !p.is_chunk) with
    | some p =>
      ({ db with pages := db.pages.map (fun q =>
           if q.id == p.id then
             { q with title := some inp.title, content := some inp.content,
                      summary := some inp.summary, embedding := storedEmb inp.embedding,
                      is_chunk := false, chunk_index := none, parent_id := none }
           else q) },
       acc.2.1 ++ [p.id], setKeyA acc.2.2 inp.url p.id)
    | none =>
      ({ pages := db.pages ++ [{
           id := db.nextId, site_id := site, url := inp.url, title := some inp.title,
           content := some inp.content, summary := some inp.summary,
           embedding := storedEmb inp.embedding, is_chunk := false,
           chunk_index := none, parent_id := none }],
         nextId := db.nextId + 1 },
       acc.2.1 ++ [db.nextId], setKeyA acc.2.2 inp.url db.nextId))
    (db, [], [])

/-- Upsert all chunk pages: resolve the parent id from the fragment-stripped
URL (skipping unresolved chunks), then upsert keyed on `(url, chunk_index)`
among chunk rows. -/
def processChunks (db : CrawlDB) (site : Nat) (urlMap : List (String × Nat))
    (cs : List PageInput) : CrawlDB × List Nat :=
  cs.foldl (fun acc inp =>
    let db := acc.1
    match List.lookup (stripFrag inp.url) urlMap with
    | none => acc
    | some pid =>
      match db.pages.find? (fun p =>
          p.url == inp.url && p.is_chunk && p.chunk_index == some inp.chunk_index) with
      | some p =>
        ({ db with pages := db.pages.map (fun q =>
             if q.id == p.id then
               { q with title := some inp.title, content := some inp.content,
                        summary := some inp.summary, embedding := storedEmb inp.embedding,
                        parent_id := some pid }
             else q) },
         acc.2 ++ [p.id])
      | none =>
        ({ pages := db.pages ++ [{
             id := db.nextId, site_id := site, url := inp.url, title := some inp.title,
             content := some inp.content, summary := some inp.summary,
             embedding := storedEmb inp.embedding, is_chunk := true,
             chunk_index := some inp.chunk_index, parent_id := some pid }],
           nextId := db.nextId + 1 },
         acc.2 ++ [db.nextId]))
    (db, [])

/-- `DBClient.add_pages`: parents first, then `conn.commit()` (making the
parent writes durable), then chunks, then a second commit. `failAt = some k`
injects a DB exception while processing chunk `k` (0-based): the
`except Exception` handler returns `[]`, the connection closes without a
second commit, so uncommitted chunk writes roll back and the store is left
at the post-parent-commit state. -/
def add_pages (db : CrawlDB) (site : Nat) (inputs : List PageInput)
    (failAt : Option Nat) : CrawlDB × List Nat :=
  if inputs = [] then (db, [])
  else
    let parents := inputs.filter (fun p => !p.is_chunk)
    let chunks := inputs.filter (fun p => p.is_chunk)
    let r1 := processParents db site parents
    match failAt with
    | some k =>
      if k < chunks.length then (r1.1, [])
      else
        let r2 := processChunks r1.1 site r1.2.2 chunks
        (r2.1, r1.2.1 ++ r2.2)
    | none =>
      let r2 := processChunks r1.1 site r1.2.2 chunks
      (r2.1, r1.2.1 ++ r2.2)

/-! ### Association-list lemmas for the merge dict -/

/-- Python dict read `d[k]` / `k in d` on the insertion-ordered dict. -/
def getKey (k : String) : List (String × β) → Option β
  | [] => none
  | e :: es => if e.1 == k then some e.2 else getKey k es

theorem getKey_mem {k : String} {v : β} :
    ∀ {d : List (String × β)}, getKey k d = some v → (k, v) ∈ d := by
  intro d
  induction d with
  | nil => intro h; exact absurd h (by simp [getKey])
  | cons e es ih =>
    intro h
    unfold getKey at h
    by_cases he : e.1 == k
    · rw [if_pos he] at h
      have h1 : e.1 = k := by simpa using he
      have h2 : e.2 = v := by simpa using h
      have he2 : e = (k, v) := by
        calc e = (e.1, e.2) := rfl
          _ = (k, v) := by rw [h1, h2]
      rw [← he2]
      exact List.mem_cons_self e es
    · rw [if_neg he] at h
      exact List.mem_cons_of_mem e (ih h)

theorem getKey_of_mem_nodup {k : String} {v : β} :
    ∀ {d : List (String × β)}, (d.map Prod.fst).Nodup → (k, v) ∈ d →
      getKey k d = some v := by
  intro d
  induction d with
  | nil => intro _ h; exact absurd h (List.not_mem_nil _)
  | cons e es ih =>
    intro hnd hm
    rw [List.map_cons, List.nodup_cons] at hnd
    rcases List.mem_cons.mp hm with rfl | hm2
    · unfold getKey
      rw [if_pos (by simp)]
    · have hk : k ∈ es.map Prod.fst := List.mem_map.mpr ⟨(k, v), hm2, rfl⟩
      have hne : e.1 ≠ k := fun he => hnd.1 (he ▸ hk)
      unfold getKey
      rw [if_neg (by simpa using hne)]
      exact ih hnd.2 hm2

theorem getKey_isSome_of_key_mem {k : String} :
    ∀ {d : List (String × β)}, k ∈ d.map Prod.fst → ∃ v, getKey k d = some v := by
  intro d
  induction d with
  | nil => intro h; exact absurd h (List.not_mem_nil _)
  | cons e es ih =>
    intro hm
    unfold getKey
    by_cases he : e.1 == k
    · exact ⟨e.2, by rw [if_pos he]⟩
    · rcases List.mem_cons.mp hm with h1 | h2
      · exact absurd (by simpa using h1.symm) he
      · rcases ih h2 with ⟨v, hv⟩
        exact ⟨v, by rw [if_neg he]; exact hv⟩

theorem any_key_iff_getKey {k : String} :
    ∀ {d : List (String × β)},
      d.any (fun e => e.1 == k) = true ↔ (getKey k d).isSome = true := by
  intro d
  induction d with
  | nil => simp [getKey]
  | cons e es ih =>
    by_cases he : e.1 == k
    · simp [getKey, he]
    · simp only [List.any_cons, he, Bool.false_or, getKey, if_neg he]
      exact ih

theorem getKey_append {k : String} (d d2 : List (String × β)) :
    getKey k (d ++ d2) =
      match getKey k d with
      | some w => some w
      | none => getKey k d2 := by
  induction d with
  | nil => simp [getKey]
  | cons e es ih =>
    by_cases he : e.1 == k
    · simp [getKey, he]
    · simpa [getKey, he] using ih

/-! ### Invariants of the hybrid merge dict -/

/-- Invariant of `combined_results`: every entry's value carries the key as
its URL, keys are non-empty, and keys are distinct. -/
def DictInv (d : List (String × HRow)) : Prop :=
  (∀ e ∈ d, e.2.page.url = e.1 ∧ e.1 ≠ "") ∧ (d.map Prod.fst).Nodup

theorem dictInv_nil : DictInv [] := ⟨fun e he => absurd he (List.not_mem_nil e), List.nodup_nil⟩

theorem getKey_mapSet_self {k : String} {v : β} (d : List (String × β)) :
    getKey k (d.map (fun e => if e.1 == k then (k, v) else e)) =
      (getKey k d).map (fun _ => v) := by
  induction d with
  | nil => rfl
  | cons e es ih =>
    by_cases hek : e.1 == k
    · simp [getKey, hek]
    · simp only [List.map_cons, if_neg hek, getKey, if_neg hek]
      exact ih

theorem getKey_mapSet_other {u k : String} {v : β} (h : k ≠ u) (d : List (String × β)) :
    getKey u (d.map (fun e => if e.1 == k then (k, v) else e)) = getKey u d := by
  induction d with
  | nil => rfl
  | cons e es ih =>
    by_cases hek : e.1 == k
    · have he1 : e.1 = k := by simpa using hek
      have h1 : ¬ (k == u) = true := by simpa using h
      have h2 : ¬ (e.1 == u) = true := by simp [he1, h]
      simp only [List.map_cons, if_pos hek, getKey, if_neg h1, if_neg h2]
      exact ih
    · simp only [List.map_cons, if_neg hek, getKey]
      by_cases heu : e.1 == u
      · rw [if_pos heu, if_pos heu]
      · rw [if_neg heu, if_neg heu]
        exact ih

theorem getKey_mapUpd_self {k : String} (f : β → β) (d : List (String × β)) :
    getKey k (d.map (fun e => if e.1 == k then (e.1, f e.2) else e)) =
      (getKey k d).map f := by
  induction d with
  | nil => rfl
  | cons e es ih =>
    by_cases hek : e.1 == k
    · simp [getKey, hek]
    · simp only [List.map_cons, if_neg hek, getKey, if_neg hek]
      exact ih

theorem getKey_mapUpd_other {u k : String} (f : β → β) (h : k ≠ u)
    (d : List (String × β)) :
    getKey u (d.map (fun e => if e.1 == k then (e.1, f e.2) else e)) = getKey u d := by
  induction d with
  | nil => rfl
  | cons e es ih =>
    by_cases hek : e.1 == k
    · have he1 : e.1 = k := by simpa using hek
      have h2 : ¬ (e.1 == u) = true := by simp [he1, h]
      simp only [List.map_cons, if_pos hek, getKey, if_neg h2]
      exact ih
    · simp only [List.map_cons, if_neg hek, getKey]
      by_cases heu : e.1 == u
      · rw [if_pos heu, if_pos heu]
      · rw [if_neg heu, if_neg heu]
        exact ih

theorem getKey_none_of_not_any {k : String} {d : List (String × β)}
    (h : ¬ d.any (fun e => e.1 == k) = true) : getKey k d = none := by
  cases hg : getKey k d with
  | none => rfl
  | some w => exact absurd (any_key_iff_getKey.mpr (by rw [hg]; rfl)) h

theorem keys_setKeyA_of_any {k : String} {v : β} {d : List (String × β)}
    (h : d.any (fun e => e.1 == k) = true) :
    (setKeyA d k v).map Prod.fst = d.map Prod.fst := by
  rw [setKeyA, if_pos h, List.map_map]
  apply List.map_congr_left
  intro e _
  by_cases he : e.1 == k
  · simp only [Function.comp_apply, if_pos he]
    exact (by simpa using he : e.1 = k).symm
  · simp only [Function.comp_apply, if_neg he]

theorem keys_setKeyA_of_not_any {k : String} {v : β} {d : List (String × β)}
    (h : ¬ d.any (fun e => e.1 == k) = true) :
    (setKeyA d k v).map Prod.fst = d.map Prod.fst ++ [k] := by
  rw [setKeyA, if_neg h, List.map_append]
  rfl

theorem dictInv_setKeyA {k : String} {v : HRow} {d : List (String × HRow)}
    (hd : DictInv d) (hk : k ≠ "") (hv : v.page.url = k) :
    DictInv (setKeyA d k v) := by
  constructor
  · intro e he
    rw [setKeyA] at he
    by_cases hany : d.any (fun x => x.1 == k) = true
    · rw [if_pos hany] at he
      rcases List.mem_map.mp he with ⟨e0, he0, heq⟩
      by_cases he0k : e0.1 == k
      · rw [if_pos he0k] at heq
        rw [← heq]
        exact ⟨hv, hk⟩
      · rw [if_neg he0k] at heq
        rw [← heq]
        exact hd.1 e0 he0
    · rw [if_neg hany] at he
      rcases List.mem_append.mp he with h1 | h2
      · exact hd.1 e h1
      · rcases List.mem_singleton.mp h2 with rfl
        exact ⟨hv, hk⟩
  · by_cases hany : d.any (fun x => x.1 == k) = true
    · rw [keys_setKeyA_of_any hany]
      exact hd.2
    · rw [keys_setKeyA_of_not_any hany]
      have hkn : k ∉ d.map Prod.fst := by
        intro hmem
        rcases getKey_isSome_of_key_mem hmem with ⟨w, hw⟩
        exact hany (any_key_iff_getKey.mpr (by rw [hw]; rfl))
      simp [List.nodup_append, hd.2, hkn]

theorem getKey_setKeyA_other {u k : String} {v : β} {d : List (String × β)}
    (h : k ≠ u) : getKey u (setKeyA d k v) = getKey u d := by
  rw [setKeyA]
  by_cases hany : d.any (fun e => e.1 == k) = true
  · rw [if_pos hany]
    exact getKey_mapSet_other h d
  · rw [if_neg hany, getKey_append]
    have h0 : getKey u [(k, v)] = none := by
      simp [getKey, (by simpa using h : ¬ (k == u) = true)]
    rw [h0]
    cases getKey u d <;> rfl

theorem getKey_setKeyA_self {k : String} {v : β} {d : List (String × β)} :
    getKey k (setKeyA d k v) = some v := by
  rw [setKeyA]
  by_cases hany : d.any (fun e => e.1 == k) = true
  · rw [if_pos hany, getKey_mapSet_self]
    have hmem : k ∈ d.map Prod.fst := by
      rcases (List.any_eq_true).mp hany with ⟨e, he, hek⟩
      exact List.mem_map.mpr ⟨e, he, by simpa using hek⟩
    rcases getKey_isSome_of_key_mem hmem with ⟨w, hw⟩
    rw [hw]
    rfl
  · rw [if_neg hany, getKey_append, getKey_none_of_not_any hany]
    simp [getKey]

theorem dictInv_addVectorRow {d : List (String × HRow)} (hd : DictInv d) (v : VRow) :
    DictInv (addVectorRow d v) := by
  rw [addVectorRow]
  by_cases hu : v.page.url == ""
  · rw [if_pos hu]; exact hd
  · rw [if_neg hu]
    exact dictInv_setKeyA hd (by simpa using hu) rfl

theorem dictInv_foldl_addVector (vs : List VRow) {d : List (String × HRow)}
    (hd : DictInv d) : DictInv (vs.foldl addVectorRow d) := by
  induction vs generalizing d with
  | nil => exact hd
  | cons v vs ih => exact ih (dictInv_addVectorRow hd v)

theorem key_mem_addVectorRow {u : String} {d : List (String × HRow)} (v : VRow)
    (h : u ∈ d.map Prod.fst) : u ∈ (addVectorRow d v).map Prod.fst := by
  rw [addVectorRow]
  by_cases hu : v.page.url == ""
  · rw [if_pos hu]; exact h
  · rw [if_neg hu]
    by_cases hany : d.any (fun e => e.1 == v.page.url) = true
    · rw [keys_setKeyA_of_any hany]; exact h
    · rw [keys_setKeyA_of_not_any hany]
      exact List.mem_append_left _ h

theorem key_mem_foldl_addVector_of_mem {u : String} (vs : List VRow)
    {d : List (String × HRow)} (h : u ∈ d.map Prod.fst) :
    u ∈ (vs.foldl addVectorRow d).map Prod.fst := by
  induction vs generalizing d with
  | nil => exact h
  | cons v vs ih => exact ih (key_mem_addVectorRow v h)

theorem key_mem_foldl_addVector {u : String} (vs : List VRow)
    (d : List (String × HRow)) (hu : u ≠ "")
    (hex : ∃ v ∈ vs, v.page.url = u) :
    u ∈ (vs.foldl addVectorRow d).map Prod.fst := by
  induction vs generalizing d with
  | nil =>
    rcases hex with ⟨v, hv, _⟩
    exact absurd hv (List.not_mem_nil v)
  | cons v vs ih =>
    rcases hex with ⟨w, hw, hwu⟩
    rw [List.foldl_cons]
    rcases List.mem_cons.mp hw with rfl | hw2
    · apply key_mem_foldl_addVector_of_mem
      have hne : ¬ (w.page.url == "") = true := by simpa [hwu] using hu
      rw [addVectorRow, if_neg hne]
      by_cases hany : d.any (fun e => e.1 == w.page.url) = true
      · rw [keys_setKeyA_of_any hany]
        have hs := any_key_iff_getKey.mp hany
        cases hg : getKey w.page.url d with
        | none => rw [hg] at hs; exact absurd hs (by simp)
        | some x =>
          rw [← hwu]
          exact List.mem_map.mpr ⟨(w.page.url, x), getKey_mem hg, rfl⟩
      · rw [keys_setKeyA_of_not_any hany]
        rw [← hwu]
        exact List.mem_append_right _ (List.mem_singleton.mpr rfl)
    · exact ih (addVectorRow d v) ⟨w, hw2, hwu⟩

theorem getKey_addTextRow_other {u : String} {d : List (String × HRow)} {t : HRow}
    (h : t.page.url ≠ u) : getKey u (addTextRow d t) = getKey u d := by
  rw [addTextRow]
  by_cases h0 : t.page.url == ""
  · rw [if_pos h0]
  · rw [if_neg h0]
    by_cases hany : d.any (fun e => e.1 == t.page.url) = true
    · rw [if_pos hany]
      exact getKey_mapUpd_other mergeTextUpd h d
    · rw [if_neg hany, getKey_append]
      have h1 : getKey u [(t.page.url,
          { t with vector_score := some 0, text_score := some (mkRat 13 20),
                   similarity := mkRat 13 20 })] = none := by
        simp [getKey, (by simpa using h : ¬ (t.page.url == u) = true)]
      rw [h1]
      cases getKey u d <;> rfl

theorem getKey_addTextRow_hit {u : String} {d : List (String × HRow)} {t : HRow}
    {r0 : HRow} (htu : t.page.url = u) (hu : u ≠ "")
    (h0 : getKey u d = some r0) :
    getKey u (addTextRow d t) = some (mergeTextUpd r0) := by
  rw [addTextRow, if_neg (by simpa [htu] using hu)]
  have hany : d.any (fun e => e.1 == t.page.url) = true := by
    rw [htu]
    exact any_key_iff_getKey.mpr (by rw [h0]; rfl)
  rw [if_pos hany, htu, getKey_mapUpd_self, h0]
  rfl

theorem dictInv_addTextRow {d : List (String × HRow)} (hd : DictInv d) (t : HRow) :
    DictInv (addTextRow d t) := by
  rw [addTextRow]
  by_cases h0 : t.page.url == ""
  · rw [if_pos h0]; exact hd
  · rw [if_neg h0]
    by_cases hany : d.any (fun e => e.1 == t.page.url) = true
    · rw [if_pos hany]
      constructor
      · intro e he
        rcases List.mem_map.mp he with ⟨e0, he0, heq⟩
        by_cases hek : e0.1 == t.page.url
        · rw [if_pos hek] at heq
          rw [← heq]
          exact ⟨(hd.1 e0 he0).1, (hd.1 e0 he0).2⟩
        · rw [if_neg hek] at heq
          rw [← heq]
          exact hd.1 e0 he0
      · have hkeys : (d.map (fun e =>
            if e.1 == t.page.url then (e.1, mergeTextUpd e.2) else e)).map Prod.fst
              = d.map Prod.fst := by
          rw [List.map_map]
          apply List.map_congr_left
          intro e _
          by_cases hek : e.1 == t.page.url
          · simp only [Function.comp_apply, if_pos hek]
          · simp only [Function.comp_apply, if_neg hek]
        rw [hkeys]
        exact hd.2
    · rw [if_neg hany]
      constructor
      · intro e he
        rcases List.mem_append.mp he with h1 | h2
        · exact hd.1 e h1
        · rcases List.mem_singleton.mp h2 with rfl
          exact ⟨rfl, by simpa using h0⟩
      · rw [List.map_append]
        have hkn : t.page.url ∉ d.map Prod.fst := by
          intro hmem
          rcases getKey_isSome_of_key_mem hmem with ⟨w, hw⟩
          exact hany (any_key_iff_getKey.mpr (by rw [hw]; rfl))
        simp [List.nodup_append, hd.2, hkn]

theorem dictInv_foldl_addText (ts : List HRow) {d : List (String × HRow)}
    (hd : DictInv d) : DictInv (ts.foldl addTextRow d) := by
  induction ts generalizing d with
  | nil => exact hd
  | cons t ts ih => exact ih (dictInv_addTextRow hd t)

/-- The text-merge phase, observed at one key `u` that is already present:
the entry keeps its `vector_score`; if some text row hits `u`, the final
similarity is `max(vector_score, 0.65)`; if none does, the entry is
unchanged. -/
theorem textPhase_getKey (ts : List HRow) (d : List (String × HRow)) (u : String)
    (r0 : HRow) (hu : u ≠ "") (h0 : getKey u d = some r0) :
    ∃ r, getKey u (ts.foldl addTextRow d) = some r ∧
      r.vector_score = r0.vector_score ∧
      ((∃ t ∈ ts, t.page.url = u) →
        r.similarity = max (r.vector_score.getD 0) (mkRat 13 20)) ∧
      ((∀ t ∈ ts, t.page.url ≠ u) → r = r0) := by
  induction ts generalizing d r0 with
  | nil =>
    refine ⟨r0, h0, rfl, ?_, fun _ => rfl⟩
    intro hex
    rcases hex with ⟨t, ht, _⟩
    exact absurd ht (List.not_mem_nil t)
  | cons t ts ih =>
    by_cases htu : t.page.url = u
    · have h1 : getKey u (addTextRow d t) = some (mergeTextUpd r0) :=
        getKey_addTextRow_hit htu hu h0
      rcases ih (addTextRow d t) (mergeTextUpd r0) h1 with ⟨r, hr, hvs, hQ, hid⟩
      refine ⟨r, by simpa [List.foldl_cons] using hr, ?_, ?_, ?_⟩
      · exact hvs
      · intro _
        by_cases hex : ∃ x ∈ ts, x.page.url = u
        · exact hQ hex
        · have hall : ∀ x ∈ ts, x.page.url ≠ u := fun x hx hxu => hex ⟨x, hx, hxu⟩
          rw [hid hall]
          rfl
      · intro hall
        exact absurd htu (hall t (List.mem_cons_self t ts))
    · have h1 : getKey u (addTextRow d t) = some r0 := by
        rw [getKey_addTextRow_other htu]
        exact h0
      rcases ih (addTextRow d t) r0 h1 with ⟨r, hr, hvs, hQ, hid⟩
      refine ⟨r, by simpa [List.foldl_cons] using hr, hvs, ?_, ?_⟩
      · intro hex
        rcases hex with ⟨x, hx, hxu⟩
        rcases List.mem_cons.mp hx with rfl | hx2
        · exact absurd hxu htu
        · exact hQ ⟨x, hx2, hxu⟩
      · intro hall
        exact hid (fun x hx => hall x (List.mem_cons_of_mem t hx))

/-! ### Concrete fixtures for witnesses and counterexamples -/

/-- A parent page with a one-dimensional embedding. -/
def exPage : Page :=
  { id := 1, site_id := 1, url := "https://e.com/a", title := some "alpha doc",
    content := some "alpha body", summary := none, embedding := some [1],
    is_chunk := false, chunk_index := none, parent_id := none }

/-- A second embedded page. -/
def exPage2 : Page :=
  { id := 2, site_id := 1, url := "https://e.com/b", title := some "beta doc",
    content := some "beta body", summary := none, embedding := some [1],
    is_chunk := false, chunk_index := none, parent_id := none }

def exSite : Site := { id := 1, name := "Acme Inc" }

/-- A store with one embedded page whose cosine similarity against any query
is reported as 1 by the vector oracle. -/
def exStore : Store :=
  { sites := [exSite], pages := [exPage], pgvector_installed := true,
    embedding_col_is_vector := true, ftMatch := fun _ _ => false,
    ftRank := fun _ _ => 0, cosSim := fun _ _ => 1 }

/-- The same store with two embedded pages. -/
def exStore2 : Store :=
  { sites := [exSite], pages := [exPage, exPage2], pgvector_installed := true,
    embedding_col_is_vector := true, ftMatch := fun _ _ => false,
    ftRank := fun _ _ => 0, cosSim := fun _ _ => 1 }

/-- A store with no pages and no sites. -/
def exStoreEmpty : Store :=
  { sites := [], pages := [], pgvector_installed := true,
    embedding_col_is_vector := true, ftMatch := fun _ _ => false,
    ftRank := fun _ _ => 0, cosSim := fun _ _ => 1 }

/-- Two chat-level results with equal similarity and distinct ids. -/
def exR1 : CResult := { id := 1, url := "u1", similarity := mkRat 1 2 }

def exR2 : CResult := { id := 2, url := "u2", similarity := mkRat 1 2 }

/-- A chat session whose profile filter matches the one stored site, with a
collaborator search that returns one result for that site and none
otherwise. -/
def exBot : ChatBot :=
  { search_sites := ["acme"], result_limit := 5, similarity_threshold := mkRat 1 2,
    sites := [exSite],
    crawlerSearch := fun _ _ _ site =>
      match site with
      | some 1 => [exR1]
      | _ => [] }

/-- An empty `crawl_pages` table. -/
def exDB0 : CrawlDB := { pages := [], nextId := 1 }

/-- A parent-page input for `add_pages`. -/
def exParentIn : PageInput :=
  { url := "https://x.com/doc", title := "Doc", content := "Body", summary := "Sum",
    embedding := [1], is_chunk := false, chunk_index := 0 }

/-- A chunk input whose fragment-stripped URL is the parent's URL. -/
def exChunkIn : PageInput :=
  { url := "https://x.com/doc#chunk-0", title := "Doc", content := "Part", summary := "",
    embedding := [1], is_chunk := true, chunk_index := 0 }

/-! ### Claim theorems -/

/-- C4: for a fixed query embedding, site filter, limit and store state, the
result count of `search_by_embedding` is non-increasing in the threshold:
the same top `limit*2` candidate set is fetched unfiltered and then filtered
by `similarity >= threshold`. -/
theorem c4_threshold_monotone (st : Store) (qe : List ℚ) (lim : Nat)
    (site : Option Nat) (t1 t2 : ℚ) (h : t1 ≤ t2) :
    (search_by_embedding st qe t2 lim site).length ≤
      (search_by_embedding st qe t1 lim site).length := by
  unfold search_by_embedding
  by_cases h1 : (st.pages.filter (embPass site)).length = 0
  · rw [if_pos h1, if_pos h1]
  · rw [if_neg h1, if_neg h1]
    by_cases h2 : (!st.pgvector_installed) = true
    · rw [if_pos h2, if_pos h2]
    · rw [if_neg h2, if_neg h2]
      by_cases h3 : (!st.embedding_col_is_vector) = true
      · rw [if_pos h3, if_pos h3]
      · rw [if_neg h3, if_neg h3]
        cases hvc : vectorCandidates st qe site (lim * 2) with
        | error e => exact Nat.le_refl _
        | ok rows =>
          apply filter_length_mono
          intro r _ hp
          simp only [decide_eq_true_eq] at hp ⊢
          exact le_trans h hp

/-- Witness for C4 at a concrete store and thresholds 1/4 ≤ 1/2. -/
theorem c4_threshold_monotone_witness :
    (mkRat 1 4 ≤ mkRat 1 2) ∧
    (search_by_embedding exStore [1] (mkRat 1 2) 10 none).length ≤
      (search_by_embedding exStore [1] (mkRat 1 4) 10 none).length :=
  ⟨by decide, c4_threshold_monotone exStore [1] 10 none (mkRat 1 4) (mkRat 1 2) (by decide)⟩

/-- C9: `search_by_embedding` never truncates to the requested limit `n`:
its output is only bounded by `2*n` (the over-fetch), and a store with two
sufficiently similar pages makes a `limit = 1` call return 2 results. -/
theorem c9_overfetch_not_truncated :
    (∀ (st : Store) (qe : List ℚ) (thr : ℚ) (lim : Nat) (site : Option Nat),
      (search_by_embedding st qe thr lim site).length ≤ lim * 2) ∧
    (search_by_embedding exStore2 [1] (mkRat 1 2) 1 none).length = 2 ∧
    1 < (search_by_embedding exStore2 [1] (mkRat 1 2) 1 none).length := by
  refine ⟨?_, by decide, by decide⟩
  intro st qe thr lim site
  unfold search_by_embedding
  by_cases h1 : (st.pages.filter (embPass site)).length = 0
  · rw [if_pos h1]; exact Nat.zero_le _
  · rw [if_neg h1]
    by_cases h2 : (!st.pgvector_installed) = true
    · rw [if_pos h2]; exact Nat.zero_le _
    · rw [if_neg h2]
      by_cases h3 : (!st.embedding_col_is_vector) = true
      · rw [if_pos h3]; exact Nat.zero_le _
      · rw [if_neg h3]
        cases hvc : vectorCandidates st qe site (lim * 2) with
        | error e => exact Nat.zero_le _
        | ok rows =>
          have hlen : rows.length ≤ lim * 2 := by
            rw [vectorCandidates] at hvc
            by_cases hdm : dimMismatch st qe site = true
            · rw [if_pos hdm] at hvc; exact absurd hvc (by simp)
            · rw [if_neg hdm] at hvc
              have := (Except.ok.injEq _ _).mp hvc
              rw [← this]
              exact List.length_take_le _ _
          exact le_trans (List.length_filter_le _ rows) hlen

/-- C3 (corrected): a dimension mismatch between the query embedding and a
stored vector does NOT surface an error — `search_by_embedding` catches the
underlying query error and silently returns the empty list. -/
theorem c3_mismatch_swallowed (st : Store) (qe : List ℚ) (thr : ℚ) (lim : Nat)
    (site : Option Nat) (h : dimMismatch st qe site = true) :
    search_by_embedding st qe thr lim site = [] := by
  unfold search_by_embedding
  by_cases h1 : (st.pages.filter (embPass site)).length = 0
  · rw [if_pos h1]
  · rw [if_neg h1]
    by_cases h2 : (!st.pgvector_installed) = true
    · rw [if_pos h2]
    · rw [if_neg h2]
      by_cases h3 : (!st.embedding_col_is_vector) = true
      · rw [if_pos h3]
      · rw [if_neg h3]
        rw [vectorCandidates, if_pos h]

/-- Counterexample to C3 as stated: on a store holding a 1-dimensional
vector, a 2-dimensional query makes the underlying vector query raise
`DimensionMismatch`, yet the strategy call returns `[]` instead of
surfacing the error. -/
theorem c3_counterexample :
    vectorCandidates exStore [1, 0] none 20 = Except.error VErr.dimensionMismatch ∧
    search_by_embedding exStore [1, 0] (mkRat 1 2) 10 none = [] :=
  ⟨rfl, by decide⟩

/-- Witness for the corrected C3 at the concrete mismatched input. -/
theorem c3_mismatch_swallowed_witness :
    dimMismatch exStore [1, 0] none = true ∧
    search_by_embedding exStore [1, 0] (mkRat 1 2) 10 none = [] :=
  ⟨by decide, c3_mismatch_swallowed exStore [1, 0] (mkRat 1 2) 10 none (by decide)⟩

/-- C2 (corrected, `limit ≥ 1`): `hybrid_search` invokes the vector search
with threshold exactly `max(threshold * 0.7, 0.2)` and limit `limit*2`, and
when that search returns at least `limit ≥ 1` results, the top `limit` of
them are returned with the lexical text search never invoked. -/
theorem c2_vector_sufficiency (st : Store) (q : String) (qe : List ℚ) (thr : ℚ)
    (lim : Nat) (site : Option Nat) (hl : 1 ≤ lim)
    (h2 : lim ≤ (hybridVres st qe thr lim site).length) :
    (hybrid_search st q qe thr lim site).results
        = ((hybridVres st qe thr lim site).take lim).map ofVRow ∧
    (hybrid_search st q qe thr lim site).textSearchInvoked = false ∧
    hybridVres st qe thr lim site
        = search_by_embedding st qe (max (thr * (7 / 10)) (2 / 10)) (lim * 2) site := by
  have hne : hybridVres st qe thr lim site ≠ [] := by
    intro he
    rw [he] at h2
    simp only [List.length_nil] at h2
    omega
  have hcond : hybridVres st qe thr lim site ≠ [] ∧
      lim ≤ (hybridVres st qe thr lim site).length := ⟨hne, h2⟩
  constructor
  · show (hybrid_search st q qe thr lim site).results = _
    unfold hybrid_search
    rw [if_pos hcond]
  constructor
  · show (hybrid_search st q qe thr lim site).textSearchInvoked = false
    unfold hybrid_search
    rw [if_pos hcond]
  · rw [hybridVres, relaxedThreshold_eq]

/-- Counterexample to C2 as stated: at `limit = 0` the vector search returns
`[]`, which does have "at least `limit` results", yet the lexical text
search is still invoked. -/
theorem c2_counterexample :
    0 ≤ (hybridVres exStoreEmpty [] (mkRat 1 2) 0 none).length ∧
    (hybrid_search exStoreEmpty "q" [] (mkRat 1 2) 0 none).textSearchInvoked = true :=
  ⟨Nat.zero_le _, by decide⟩

/-- Witness for the corrected C2 at a store whose single page meets the
relaxed threshold at `limit = 1`. -/
theorem c2_vector_sufficiency_witness :
    1 ≤ (hybridVres exStore [1] (mkRat 1 2) 1 none).length ∧
    (hybrid_search exStore "alpha" [1] (mkRat 1 2) 1 none).textSearchInvoked = false :=
  ⟨by decide,
   (c2_vector_sufficiency exStore "alpha" [1] (mkRat 1 2) 1 none (Nat.le_refl 1)
      (by decide)).2.1⟩

/-- C5: when the query contains no domain-shaped substring and the title
ILIKE stage finds rows, `search_by_text` returns those rows truncated to the
limit and the full-text and relaxed-ILIKE stages never run. -/
theorem c5_title_short_circuit (st : Store) (q : String) (lim : Nat)
    (site : Option Nat) (hdom : findDomains q = [])
    (ht : titleStage st q lim site ≠ []) :
    (search_by_text st q lim site).results = (titleStage st q lim site).take lim ∧
    (search_by_text st q lim site).ranFullText = false ∧
    (search_by_text st q lim site).ranIlike = false := by
  have hnd : ¬ findDomains q ≠ [] := fun hc => hc hdom
  refine ⟨?_, ?_, ?_⟩ <;>
    · unfold search_by_text
      rw [if_neg hnd, if_pos ht]

/-- Witness for C5: the query "alpha" has no domain shape and matches the
stored page title. -/
theorem c5_title_short_circuit_witness :
    findDomains "alpha" = [] ∧
    titleStage exStore "alpha" 5 none ≠ [] ∧
    (search_by_text exStore "alpha" 5 none).ranFullText = false :=
  ⟨by decide, by decide,
   (c5_title_short_circuit exStore "alpha" 5 none (by decide) (by decide)).2.1⟩

/-- The REGULAR merge is sorted by similarity descending and truncated. -/
theorem mergeSiteResults_props (lists : List (List CResult)) (lim : Nat) :
    (mergeSiteResults lists lim).Pairwise (fun a b => b.similarity ≤ a.similarity) ∧
    (mergeSiteResults lists lim).length ≤ lim :=
  ⟨(pairwise_sortBySimDesc _ _).sublist (List.take_sublist _ _),
   List.length_take_le _ _⟩

/-- C6 (corrected): the merged per-site list is sorted by similarity
descending and truncated to the limit; ties are NOT broken by identifier —
they keep the per-site accumulation order of Python's stable sort, so the
tie order depends on per-site execution order. -/
theorem c6_merge_sorted_stable (lists : List (List CResult)) (lim : Nat) :
    (mergeSiteResults lists lim).Pairwise (fun a b => b.similarity ≤ a.similarity) ∧
    (mergeSiteResults lists lim).length ≤ lim :=
  mergeSiteResults_props lists lim

/-- Counterexample to C6 as stated: two one-result site lists with equal
similarity and ids 1 and 2. Swapping the per-site execution order swaps the
output, and the first output lists id 1 before id 2 — not id-descending. -/
theorem c6_counterexample :
    exR1.similarity = exR2.similarity ∧
    exR1.id < exR2.id ∧
    mergeSiteResults [[exR1], [exR2]] 5 = [exR1, exR2] ∧
    mergeSiteResults [[exR2], [exR1]] 5 = [exR2, exR1] ∧
    ([exR1, exR2] : List CResult) ≠ [exR2, exR1] := by
  refine ⟨by decide, by decide, by decide, by decide, by decide⟩

/-- C7: REGULAR-mode retrieval with a non-empty profile site filter:
patterns resolve to site ids by case-insensitive substring match in either
direction; the union of per-site searches is sorted by similarity descending
and truncated; and when no site matches or the merged per-site list is
empty, a single unfiltered search is performed instead of failing. -/
theorem c7_regular_site_filter (bot : ChatBot) (q : String)
    (hs : bot.search_sites ≠ []) :
    (∀ i, i ∈ matchedSiteIds bot.sites bot.search_sites ↔
      ∃ s ∈ bot.sites, s.id = i ∧ ∃ pat ∈ bot.search_sites,
        (subStr (lowerStr pat) (lowerStr s.name) ||
          subStr (lowerStr s.name) (lowerStr pat)) = true) ∧
    (matchedSiteIds bot.sites bot.search_sites ≠ [] → perSiteMerged bot q ≠ [] →
      regularSearch bot q = perSiteMerged bot q) ∧
    (matchedSiteIds bot.sites bot.search_sites = [] →
      regularSearch bot q =
        bot.crawlerSearch q bot.result_limit bot.similarity_threshold none) ∧
    (matchedSiteIds bot.sites bot.search_sites ≠ [] → perSiteMerged bot q = [] →
      regularSearch bot q =
        bot.crawlerSearch q bot.result_limit bot.similarity_threshold none) ∧
    (perSiteMerged bot q).Pairwise (fun a b => b.similarity ≤ a.similarity) ∧
    (perSiteMerged bot q).length ≤ bot.result_limit := by
  refine ⟨?_, ?_, ?_, ?_, (mergeSiteResults_props _ _).1, (mergeSiteResults_props _ _).2⟩
  · intro i
    simp only [matchedSiteIds, List.mem_map, List.mem_filter, siteMatches,
      List.any_eq_true]
    constructor
    · rintro ⟨s, ⟨hsm, ⟨pat, hpat, hmatch⟩⟩, hid⟩
      exact ⟨s, hsm, hid, pat, hpat, hmatch⟩
    · rintro ⟨s, hsm, hid, pat, hpat, hmatch⟩
      exact ⟨s, ⟨hsm, ⟨pat, hpat, hmatch⟩⟩, hid⟩
  · intro hids hm
    unfold regularSearch
    rw [if_pos hs, if_pos hids, if_pos hm]
  · intro hids
    unfold regularSearch
    rw [if_pos hs, if_neg (fun hc => hc hids)]
  · intro hids hm
    unfold regularSearch
    rw [if_pos hs, if_pos hids, if_neg (fun hc => hc hm)]

/-- Witness for C7 on a concrete session: the pattern "acme" matches the
site "Acme Inc", and the per-site search result is returned. -/
theorem c7_regular_site_filter_witness :
    exBot.search_sites ≠ [] ∧
    matchedSiteIds exBot.sites exBot.search_sites ≠ [] ∧
    perSiteMerged exBot "query" ≠ [] ∧
    regularSearch exBot "query" = perSiteMerged exBot "query" :=
  ⟨by decide, by decide, by decide,
   (c7_regular_site_filter exBot "query" (by decide)).2.1 (by decide) (by decide)⟩

/-- The classifier output when the raw label is the default. -/
theorem chooseStrategy_of_regular_label {q : String} {llm : Except String String}
    (h : classifyRaw q llm = "REGULAR_SEARCH") :
    chooseStrategy q llm = Strategy.regular := by
  unfold chooseStrategy
  rw [h]
  decide

/-- A failed auxiliary call yields the default label. -/
theorem classifyRaw_error (q : String) (e : String) :
    classifyRaw q (Except.error e) = "REGULAR_SEARCH" := by
  unfold classifyRaw
  split <;> rfl

/-- C8: the query classifier is total and never propagates an error: its
result is always one of the three strategies; a failing auxiliary call, an
unrecognized (trimmed, case-sensitively compared) label, a query of at most
3 tokens, and a query without any trigger word all fall back to the REGULAR
strategy. -/
theorem c8_classifier_never_errors (q : String) (llm : Except String String) :
    (chooseStrategy q llm = Strategy.urlSearch ∨
      chooseStrategy q llm = Strategy.bestContent ∨
      chooseStrategy q llm = Strategy.regular) ∧
    (∀ e, chooseStrategy q (Except.error e) = Strategy.regular) ∧
    (∀ out, trimStr out ≠ "URL_SEARCH" → trimStr out ≠ "BEST_CONTENT" →
      chooseStrategy q (Except.ok out) = Strategy.regular) ∧
    ((tokens q).length ≤ 3 → chooseStrategy q llm = Strategy.regular) ∧
    ((∀ w ∈ triggerWords, subStr w (lowerStr q) = false) →
      chooseStrategy q llm = Strategy.regular) := by
  refine ⟨?_, ?_, ?_, ?_, ?_⟩
  · unfold chooseStrategy
    by_cases h1 : classifyRaw q llm = "URL_SEARCH"
    · rw [if_pos h1]; exact Or.inl rfl
    · rw [if_neg h1]
      by_cases h2 : classifyRaw q llm = "BEST_CONTENT"
      · rw [if_pos h2]; exact Or.inr (Or.inl rfl)
      · rw [if_neg h2]; exact Or.inr (Or.inr rfl)
  · intro e
    exact chooseStrategy_of_regular_label (classifyRaw_error q e)
  · intro out h1 h2
    by_cases hheur : (tokens q).length > 3 ∧
        triggerWords.any (fun w => subStr w (lowerStr q)) = true
    · have hcr : classifyRaw q (Except.ok out) = trimStr out := by
        unfold classifyRaw
        rw [if_pos hheur]
      unfold chooseStrategy
      rw [hcr, if_neg h1, if_neg h2]
    · exact chooseStrategy_of_regular_label (by unfold classifyRaw; rw [if_neg hheur])
  · intro hlen
    apply chooseStrategy_of_regular_label
    unfold classifyRaw
    rw [if_neg (fun hc => absurd hc.1 (by omega))]
  · intro hall
    apply chooseStrategy_of_regular_label
    unfold classifyRaw
    have hany : triggerWords.any (fun w => subStr w (lowerStr q)) = false := by
      rw [List.any_eq_false]
      intro w hw
      rw [hall w hw]
      exact Bool.false_ne_true
    rw [if_neg (fun hc => by rw [hany] at hc; exact Bool.false_ne_true hc.2)]

/-- Witness for C8: a short query with a misformatted auxiliary label still
executes REGULAR. -/
theorem c8_classifier_never_errors_witness :
    (tokens "hi there").length ≤ 3 ∧
    chooseStrategy "hi there" (Except.ok "url_search") = Strategy.regular :=
  ⟨by decide,
   (c8_classifier_never_errors "hi there" (Except.ok "url_search")).2.2.2.1 (by decide)⟩

/-- C10: `add_pages` is not atomic on error. Parent pages are committed
before any chunk is processed, so an exception raised during chunk
processing makes `add_pages` return `[]` (the error is swallowed) while the
store already holds the batch's parent upserts: a `[]` return does not imply
the store is unchanged. The concrete part shows an empty store that gains a
page from a call returning `[]`. -/
theorem c10_add_pages_not_atomic :
    (∀ (db : CrawlDB) (site : Nat) (inputs : List PageInput) (k : Nat),
      k < (inputs.filter (fun p => p.is_chunk)).length →
      (add_pages db site inputs (some k)).2 = [] ∧
      (add_pages db site inputs (some k)).1 =
        (processParents db site (inputs.filter (fun p => !p.is_chunk))).1) ∧
    (add_pages exDB0 7 [exParentIn, exChunkIn] (some 0)).2 = [] ∧
    (add_pages exDB0 7 [exParentIn, exChunkIn] (some 0)).1.pages ≠ exDB0.pages := by
  refine ⟨?_, by decide, by decide⟩
  intro db site inputs k hk
  have hne : inputs ≠ [] := by
    intro h
    rw [h] at hk
    simp at hk
  unfold add_pages
  rw [if_neg hne]
  simp only []
  rw [if_pos hk]
  exact ⟨rfl, rfl⟩

theorem mem_sortBySimDesc {key : α → ℚ} {l : List α} {x : α} :
    x ∈ sortBySimDesc key l ↔ x ∈ l :=
  (sortBy_perm _ l).mem_iff

theorem mkRat_13_20_eq : (mkRat 13 20 : ℚ) = 13 / 20 := by
  rw [Rat.mkRat_eq_div]
  norm_num

/-- C1: in the merge branch of `hybrid_search` (vector results non-empty but
fewer than `limit`, text results non-empty), every returned result whose URL
occurs in both the vector and the lexical result set has
`similarity = max(vector_score, 0.65)` — hence at least 0.65 — and the
returned list is sorted by similarity descending, deduplicated by URL, and
at most `limit` long. -/
theorem c1_merge_floor (st : Store) (q : String) (qe : List ℚ) (thr : ℚ)
    (lim : Nat) (site : Option Nat)
    (h1 : hybridVres st qe thr lim site ≠ [])
    (h2 : (hybridVres st qe thr lim site).length < lim)
    (h3 : hybridTres st q lim site ≠ []) :
    (∀ r ∈ (hybrid_search st q qe thr lim site).results,
      r.page.url ∈ (hybridVres st qe thr lim site).map (fun v => v.page.url) →
      r.page.url ∈ (hybridTres st q lim site).map (fun t => t.page.url) →
      r.similarity = max (r.vector_score.getD 0) (13 / 20) ∧
        (13 / 20 : ℚ) ≤ r.similarity) ∧
    (hybrid_search st q qe thr lim site).results.Pairwise
      (fun a b => b.similarity ≤ a.similarity) ∧
    (hybrid_search st q qe thr lim site).results.length ≤ lim ∧
    ((hybrid_search st q qe thr lim site).results.map (fun r => r.page.url)).Nodup := by
  have hc1 : ¬ (hybridVres st qe thr lim site ≠ [] ∧
      lim ≤ (hybridVres st qe thr lim site).length) :=
    fun hc => absurd hc.2 (Nat.not_le.mpr h2)
  have hc2 : ¬ (hybridTres st q lim site ≠ [] ∧ hybridVres st qe thr lim site = []) :=
    fun hc => h1 hc.2
  have hc3 : ¬ (hybridTres st q lim site = [] ∧ hybridVres st qe thr lim site = []) :=
    fun hc => h1 hc.2
  have hres : (hybrid_search st q qe thr lim site).results =
      (sortBySimDesc (fun r => r.similarity)
        ((((hybridTres st q lim site).map textPrepared).foldl addTextRow
          ((hybridVres st qe thr lim site).foldl addVectorRow [])).map
            (fun e => e.2))).take lim := by
    unfold hybrid_search
    rw [if_neg hc1, if_neg hc2, if_neg hc3]
  have hinv : DictInv (((hybridTres st q lim site).map textPrepared).foldl addTextRow
      ((hybridVres st qe thr lim site).foldl addVectorRow [])) :=
    dictInv_foldl_addText _ (dictInv_foldl_addVector _ dictInv_nil)
  refine ⟨?_, ?_, ?_, ?_⟩
  · intro r hr hru hrt
    rw [hres] at hr
    have hr2 : r ∈ (((hybridTres st q lim site).map textPrepared).foldl addTextRow
        ((hybridVres st qe thr lim site).foldl addVectorRow [])).map
          (fun e => e.2) :=
      mem_sortBySimDesc.mp ((List.take_sublist _ _).subset hr)
    rcases List.mem_map.mp hr2 with ⟨e, heD, hesnd⟩
    have hcoh := hinv.1 e heD
    have heu : e.1 = r.page.url := by rw [← hcoh.1, hesnd]
    have hu : r.page.url ≠ "" := by rw [← heu]; exact hcoh.2
    have hgD : getKey r.page.url (((hybridTres st q lim site).map textPrepared).foldl
        addTextRow ((hybridVres st qe thr lim site).foldl addVectorRow [])) = some r := by
      rw [← heu, ← hesnd]
      exact getKey_of_mem_nodup hinv.2 heD
    rcases List.mem_map.mp hru with ⟨v, hv, hvu⟩
    have hkey0 : r.page.url ∈
        ((hybridVres st qe thr lim site).foldl addVectorRow []).map Prod.fst :=
      key_mem_foldl_addVector _ _ hu ⟨v, hv, hvu⟩
    rcases getKey_isSome_of_key_mem hkey0 with ⟨r0, h0⟩
    rcases textPhase_getKey ((hybridTres st q lim site).map textPrepared) _
        r.page.url r0 hu h0 with ⟨rf, hrf, _, hQ, _⟩
    have hex : ∃ t ∈ (hybridTres st q lim site).map textPrepared,
        t.page.url = r.page.url := by
      rcases List.mem_map.mp hrt with ⟨t0, ht0, ht0u⟩
      exact ⟨textPrepared t0, List.mem_map.mpr ⟨t0, ht0, rfl⟩, ht0u⟩
    have hrfr : rf = r := by
      have := hgD.symm.trans hrf
      exact (Option.some.injEq _ _).mp this.symm
    have hsim : r.similarity = max (r.vector_score.getD 0) (mkRat 13 20) := by
      rw [← hrfr]
      exact hQ hex
    rw [mkRat_13_20_eq] at hsim
    exact ⟨hsim, by rw [hsim]; exact le_max_right _ _⟩
  · rw [hres]
    exact (pairwise_sortBySimDesc _ _).sublist (List.take_sublist _ _)
  · rw [hres]
    exact List.length_take_le _ _
  · rw [hres]
    have hnd : ((((hybridTres st q lim site).map textPrepared).foldl addTextRow
        ((hybridVres st qe thr lim site).foldl addVectorRow [])).map
          (fun e => e.2)).map (fun r : HRow => r.page.url) |>.Nodup := by
      rw [List.map_map]
      have hcongr : (((hybridTres st q lim site).map textPrepared).foldl addTextRow
          ((hybridVres st qe thr lim site).foldl addVectorRow [])).map
            ((fun r : HRow => r.page.url) ∘ (fun e => e.2)) =
          (((hybridTres st q lim site).map textPrepared).foldl addTextRow
          ((hybridVres st qe thr lim site).foldl addVectorRow [])).map Prod.fst := by
        apply List.map_congr_left
        intro e he
        exact (hinv.1 e he).1
      rw [hcongr]
      exact hinv.2
    have hperm := (sortBy_perm (fun x y =>
        decide ((fun r : HRow => r.similarity) y < (fun r : HRow => r.similarity) x))
      ((((hybridTres st q lim site).map textPrepared).foldl addTextRow
        ((hybridVres st qe thr lim site).foldl addVectorRow [])).map (fun e => e.2))).map
      (fun r : HRow => r.page.url)
    have hnd2 := hperm.nodup_iff.mpr hnd
    exact hnd2.sublist ((List.take_sublist _ _).map _)

/-- Witness for C1 at a store where the single page is returned by both the
vector and the lexical search. -/
theorem c1_merge_floor_witness :
    hybridVres exStore [1] (mkRat 1 2) 3 none ≠ [] ∧
    (hybridVres exStore [1] (mkRat 1 2) 3 none).length < 3 ∧
    hybridTres exStore "alpha" 3 none ≠ [] ∧
    (hybrid_search exStore "alpha" [1] (mkRat 1 2) 3 none).results.length ≤ 3 :=
  ⟨by decide, by decide, by decide,
   (c1_merge_floor exStore "alpha" [1] (mkRat 1 2) 3 none (by decide) (by decide)
      (by decide)).2.2.1⟩

end Supa
